import Mathlib

/-!
# Verification of the mcumgr-client FFI boundary and transfer core

Shallow embedding of `src/lib.rs` (the FFI boundary: `rust_list`,
`rust_upload`, `rust_reset`, `rust_free_string`, the `Cli` → `SerialSpecs`
conversion and the `SerialSpecs` defaults), together with a model of the
transfer core (Line Framer and the upload Transfer State Machine) built
from the design document, since those modules are not part of the sources
at hand.

Modelling conventions:
* Rust `String` values are represented by their UTF-8 byte sequences
  (`List Nat`, each element < 256); `""` is `[]`.
* A C pointer argument `*const c_char` is `CArg`: either `null` or a
  non-null pointer to the NUL-terminated byte run it addresses.
* `CStr::to_str` succeeds exactly when the bytes are valid UTF-8; the
  validator `utf8ValidB` implements the UTF-8 well-formedness table used by
  the Rust standard library (rejecting overlong forms, surrogates and
  code points above U+10FFFF).
* The out-of-scope operations `list`, `upload`, `reset` and the JSON
  serializer are passed in as function parameters, so every theorem
  quantifies over their behaviour.
* Machine integers: `c_uint`/`u32` values are `Nat`; the only width check
  the code performs is `slot.try_into::<u8>()`, modelled as `slot < 256`.
-/

/-- A `*const c_char` argument: null, or a pointer to a byte run
(the bytes read by `CStr::from_ptr` up to the terminating NUL). -/
inductive CArg where
  | null : CArg
  | bytes (bs : List Nat) : CArg
deriving DecidableEq

/-- One step of UTF-8 validation with explicit fuel (the fuel is the
list length, which bounds the number of decoded characters).  Implements
the standard UTF-8 byte-range table, as used by `CStr::to_str`:
continuation bytes are `0x80–0xBF`, `0xE0` requires `0xA0–0xBF` next
(no overlong 3-byte forms), `0xED` requires `0x80–0x9F` (no surrogates),
`0xF0` requires `0x90–0xBF` (no overlong 4-byte forms), `0xF4` requires
`0x80–0x8F` (nothing above U+10FFFF). -/
def utf8ValidF : Nat → List Nat → Bool
  | 0, l => l.isEmpty
  | _ + 1, [] => true
  | fuel + 1, b :: rest =>
    if b < 0x80 then utf8ValidF fuel rest
    else if 0xC2 ≤ b && b ≤ 0xDF then
      match rest with
      | b1 :: r => (0x80 ≤ b1 && b1 ≤ 0xBF) && utf8ValidF fuel r
      | [] => false
    else if b = 0xE0 then
      match rest with
      | b1 :: b2 :: r =>
          (0xA0 ≤ b1 && b1 ≤ 0xBF) && (0x80 ≤ b2 && b2 ≤ 0xBF) && utf8ValidF fuel r
      | _ => false
    else if (0xE1 ≤ b && b ≤ 0xEC) || b = 0xEE || b = 0xEF then
      match rest with
      | b1 :: b2 :: r =>
          (0x80 ≤ b1 && b1 ≤ 0xBF) && (0x80 ≤ b2 && b2 ≤ 0xBF) && utf8ValidF fuel r
      | _ => false
    else if b = 0xED then
      match rest with
      | b1 :: b2 :: r =>
          (0x80 ≤ b1 && b1 ≤ 0x9F) && (0x80 ≤ b2 && b2 ≤ 0xBF) && utf8ValidF fuel r
      | _ => false
    else if b = 0xF0 then
      match rest with
      | b1 :: b2 :: b3 :: r =>
          (0x90 ≤ b1 && b1 ≤ 0xBF) && (0x80 ≤ b2 && b2 ≤ 0xBF) &&
            (0x80 ≤ b3 && b3 ≤ 0xBF) && utf8ValidF fuel r
      | _ => false
    else if 0xF1 ≤ b && b ≤ 0xF3 then
      match rest with
      | b1 :: b2 :: b3 :: r =>
          (0x80 ≤ b1 && b1 ≤ 0xBF) && (0x80 ≤ b2 && b2 ≤ 0xBF) &&
            (0x80 ≤ b3 && b3 ≤ 0xBF) && utf8ValidF fuel r
      | _ => false
    else if b = 0xF4 then
      match rest with
      | b1 :: b2 :: b3 :: r =>
          (0x80 ≤ b1 && b1 ≤ 0x8F) && (0x80 ≤ b2 && b2 ≤ 0xBF) &&
            (0x80 ≤ b3 && b3 ≤ 0xBF) && utf8ValidF fuel r
      | _ => false
    else false

/-- UTF-8 validity of a byte sequence (`CStr::to_str` succeeds iff true). -/
def utf8ValidB (l : List Nat) : Bool := utf8ValidF l.length l

/-- `SerialSpecs` from `transfer.rs` as re-exported and populated by
`lib.rs`; the `device` string is its UTF-8 byte sequence. -/
structure SerialSpecs where
  device : List Nat
  initial_timeout_s : Nat
  subsequent_timeout_ms : Nat
  nb_retry : Nat
  linelength : Nat
  mtu : Nat
  baudrate : Nat
deriving DecidableEq

/-- The `Cli` argument struct from `lib.rs` (clap parser). -/
structure Cli where
  device : List Nat
  verbose : Bool
  initial_timeout_s : Nat
  subsequent_timeout_ms : Nat
  nb_retry : Nat
  linelength : Nat
  mtu : Nat
  baudrate : Nat
deriving DecidableEq

/-- `impl From<&Cli> for SerialSpecs` (lib.rs lines 67–79). -/
def serialSpecsFromCli (cli : Cli) : SerialSpecs :=
  { device := cli.device
    initial_timeout_s := cli.initial_timeout_s
    subsequent_timeout_ms := cli.subsequent_timeout_ms
    nb_retry := cli.nb_retry
    linelength := cli.linelength
    mtu := cli.mtu
    baudrate := cli.baudrate }

/-- `impl Default for SerialSpecs` (lib.rs lines 82–94). -/
def serialSpecsDefault : SerialSpecs :=
  { device := []
    initial_timeout_s := 60
    subsequent_timeout_ms := 200
    nb_retry := 4
    linelength := 128
    mtu := 512
    baudrate := 115200 }

/-- The `Cli` carrying the declared clap command-line defaults
(lib.rs lines 31–65: device "", initial_timeout 60, subsequent_timeout
200, nb_retry 4, linelength 128, mtu 512, baudrate 115200). -/
def cliDefaults : Cli :=
  { device := []
    verbose := false
    initial_timeout_s := 60
    subsequent_timeout_ms := 200
    nb_retry := 4
    linelength := 128
    mtu := 512
    baudrate := 115200 }

/-- The progress-callback wrapper built inside `rust_upload`
(lib.rs lines 167–171): `callback.map(|cb| move |offset, total| cb(offset, total))`. -/
def wrapCallback (cb : Option (Nat → Nat → Unit)) : Option (Nat → Nat → Unit) :=
  cb.map (fun f => fun offset total => f offset total)

/-- The UTF-8 bytes of the string `"\x7b\x7d"` (the fallback JSON object
produced when `serde_json::to_string_pretty` fails). -/
def emptyJsonObject : List Nat := [0x7b, 0x7d]

/-- `rust_list` (lib.rs lines 98–127).  The return value is the returned
C string: `none` models the null pointer, `some js` models a freshly
allocated string holding the bytes `js`.  The out-of-scope `list`
operation and the JSON serializer `serde_json::to_string_pretty` are
parameters (`listFn`, `ser`); `ser v = none` models a serialization
error, handled by the source's `unwrap_or_else(|_| "\x7b\x7d")`. -/
def rust_list {α : Type} (device : CArg)
    (listFn : SerialSpecs → Except Unit α)
    (ser : α → Option (List Nat)) : Option (List Nat) :=
  match device with
  | CArg.null => none
  | CArg.bytes db =>
    if utf8ValidB db then
      let specs : SerialSpecs := { serialSpecsDefault with device := db }
      match listFn specs with
      | Except.ok v => some ((ser v).getD emptyJsonObject)
      | Except.error _ => none
    else none

/-- `rust_upload` (lib.rs lines 131–176).  Returns the `c_int` status
code.  The out-of-scope `upload` operation is the parameter `uploadFn`,
applied to the specs, the filename bytes, the converted `u8` slot and the
wrapped callback, exactly as at the call site. -/
def rust_upload (device filename : CArg) (slot : Nat)
    (callback : Option (Nat → Nat → Unit))
    (uploadFn : SerialSpecs → List Nat → Nat → Option (Nat → Nat → Unit) → Except Unit Unit) :
    Int :=
  match device, filename with
  | CArg.null, _ => -1
  | CArg.bytes _, CArg.null => -1
  | CArg.bytes db, CArg.bytes fb =>
    if utf8ValidB db then
      if utf8ValidB fb then
        let specs : SerialSpecs := { serialSpecsDefault with device := db }
        if slot < 256 then
          match uploadFn specs fb slot (wrapCallback callback) with
          | Except.ok _ => 0
          | Except.error _ => -5
        else -4
      else -3
    else -2

/-- `rust_reset` (lib.rs lines 180–200).  Returns the `c_int` status
code; the out-of-scope `reset` operation is the parameter `resetFn`. -/
def rust_reset (device : CArg)
    (resetFn : SerialSpecs → Except Unit Unit) : Int :=
  match device with
  | CArg.null => -1
  | CArg.bytes db =>
    if utf8ValidB db then
      match resetFn { serialSpecsDefault with device := db } with
      | Except.ok _ => 0
      | Except.error _ => -3
    else -2

/-- What `rust_free_string` does with its argument. -/
inductive FreeAction where
  | noop : FreeAction
  | dealloc : FreeAction
deriving DecidableEq

/-- `rust_free_string` (lib.rs lines 267–274): null is an early return,
a non-null pointer is reclaimed via `CString::from_raw`. -/
def rust_free_string (s : Option (List Nat)) : FreeAction :=
  match s with
  | none => FreeAction.noop
  | some _ => FreeAction.dealloc

/-! ## Transfer State Machine (design §4.5)

The `transfer` module is not among the sources at hand; the upload loop
is modelled from the design document. -/

/-- Modelled from the spec: §4.5 step 1, chunk sizing for the upload
state machine of the missing `transfer` module.  `chunk_len =
min(budget, total_len - offset)`; the budget is `fb` for the first
chunk (offset 0, whose usable payload budget is smaller because it also
carries length, hash and slot) and `lb` for later chunks. -/
def chunkLen (fb lb L offset : Nat) : Nat :=
  min (if offset = 0 then fb else lb) (L - offset)

/-- Modelled from the spec: the sequence of `(offset, chunk_len)` pairs
the upload state machine of the missing `transfer` module sends when
every chunk is acknowledged, starting from `offset`.  Recursion is by
fuel; `L - offset` units suffice whenever both budgets are positive. -/
def uploadChunksF (fb lb L : Nat) : Nat → Nat → List (Nat × Nat)
  | 0, _ => []
  | fuel + 1, offset =>
    if offset < L then
      (offset, chunkLen fb lb L offset) ::
        uploadChunksF fb lb L fuel (offset + chunkLen fb lb L offset)
    else []

/-- A transport response to one sent chunk, as distinguished by the
design document: a timeout, a malformed/NAK response, or a valid
acknowledgement carrying the next offset the device expects. -/
inductive Resp where
  | timeout : Resp
  | nak : Resp
  | ack (off : Nat) : Resp
deriving DecidableEq

/-- Terminal outcome of an upload run. -/
inductive UpResult where
  | done : UpResult
  | timedOut : UpResult
  | protoErr : UpResult
  | outOfResponses : UpResult
deriving DecidableEq

/-- Observable trace of an upload run: every chunk send as
`(offset, chunk_len)`, every progress-callback invocation as
`(bytes_done, bytes_total)`, and the terminal outcome. -/
structure RunTrace where
  sends : List (Nat × Nat)
  events : List (Nat × Nat)
  result : UpResult
deriving DecidableEq

/-- Modelled from the spec: §4.5 Transfer State Machine of the missing
`transfer` module, driven by a script of transport responses (one
response consumed per send).
* `Done` when `offset = total_len`.
* Chunk of `chunkLen` bytes is sent at the current offset.
* A valid acknowledgement must report next offset `offset + chunk_len`;
  any other value aborts immediately with a protocol error (step 3).
  On match the failure counter resets, the progress sink is invoked
  with `(offset + chunk_len, total_len)` and the offset advances.
* On timeout or NAK the failure counter increments and the identical
  chunk is resent; when the counter exceeds `nbRetry` the run aborts
  with `Timeout` / `ProtocolError` respectively (step 4). -/
def runUpload (fb lb nbRetry L : Nat) : Nat → Nat → List Resp → RunTrace
  | offset, fails, resps =>
    if L ≤ offset then ⟨[], [], UpResult.done⟩
    else
      match resps with
      | [] => ⟨[], [], UpResult.outOfResponses⟩
      | r :: rest =>
        let len := chunkLen fb lb L offset
        match r with
        | Resp.ack o2 =>
          if o2 = offset + len then
            let t := runUpload fb lb nbRetry L (offset + len) 0 rest
            ⟨(offset, len) :: t.sends, (offset + len, L) :: t.events, t.result⟩
          else ⟨[(offset, len)], [], UpResult.protoErr⟩
        | Resp.timeout =>
          if nbRetry < fails + 1 then ⟨[(offset, len)], [], UpResult.timedOut⟩
          else
            let t := runUpload fb lb nbRetry L offset (fails + 1) rest
            ⟨(offset, len) :: t.sends, t.events, t.result⟩
        | Resp.nak =>
          if nbRetry < fails + 1 then ⟨[(offset, len)], [], UpResult.protoErr⟩
          else
            let t := runUpload fb lb nbRetry L offset (fails + 1) rest
            ⟨(offset, len) :: t.sends, t.events, t.result⟩

/-- Modelled from the spec: the response script of a fault-free
transport, which acknowledges every chunk from `offset` on with exactly
the next expected offset. -/
def ackScript (fb lb L : Nat) (fuel offset : Nat) : List Resp :=
  (uploadChunksF fb lb L fuel offset).map (fun p => Resp.ack (p.1 + p.2))

/-! ## Line Framer (design §4.2)

The framing module is not among the sources at hand; it is modelled from
the design document.  The document leaves the exact printable encoding
and checksum algorithm open (§9); this model adopts hexadecimal
character encoding (two printable characters per byte) and a 16-bit
byte-sum checksum, both documented choices satisfying §4.2's shape:
printable encoding, trailing integrity checksum appended before
splitting, first line carrying a start marker and the total encoded
length, continuation lines carrying a continuation marker. -/

/-- Modelled from the spec: the integrity checksum covering a whole
payload — the byte sum reduced to 16 bits. -/
def checksum16 (payload : List Nat) : Nat := payload.sum % 65536

/-- Modelled from the spec: the two trailing checksum bytes
(big-endian) appended to the payload before printable encoding. -/
def checksumBytes (payload : List Nat) : List Nat :=
  [checksum16 payload / 256, checksum16 payload % 256]

/-- Hexadecimal digit character code for a value below 16
(0–9 → ASCII digits, 10–15 → A–F). -/
def hexDigit (n : Nat) : Nat := if n < 10 then 48 + n else 55 + n

/-- Printable (hexadecimal) encoding of a byte sequence: two characters
per byte, high nibble first. -/
def hexEncode (bs : List Nat) : List Nat :=
  bs.flatMap (fun b => [hexDigit (b / 16), hexDigit (b % 16)])

/-- Value of one hexadecimal digit character, `none` on anything else. -/
def hexVal (c : Nat) : Option Nat :=
  if 48 ≤ c ∧ c ≤ 57 then some (c - 48)
  else if 65 ≤ c ∧ c ≤ 70 then some (c - 55)
  else none

/-- Printable (hexadecimal) decoding: inverse of `hexEncode`; fails on
a stray digit or a non-hexadecimal character. -/
def hexDecode : List Nat → Option (List Nat)
  | [] => some []
  | [_] => none
  | c1 :: c2 :: rest =>
    match hexVal c1, hexVal c2, hexDecode rest with
    | some h, some l, some r => some ((16 * h + l) :: r)
    | _, _, _ => none

/-- Splits a list into consecutive runs of at most `n` elements, with
explicit fuel (`xs.length` units suffice when `1 ≤ n`). -/
def chunksOfF {α : Type} : Nat → Nat → List α → List (List α)
  | 0, _, _ => []
  | _ + 1, _, [] => []
  | fuel + 1, n, x :: xs =>
    (x :: xs).take n :: chunksOfF fuel n ((x :: xs).drop n)

/-- A framed line: the first line of a frame carries the start marker
and the declared total encoded length, continuation lines carry the
continuation marker, and a noise line is non-framed garbage on the
wire. -/
inductive FrameLine where
  | start (totalLen : Nat) (body : List Nat) : FrameLine
  | cont (body : List Nat) : FrameLine
  | noise (junk : List Nat) : FrameLine
deriving DecidableEq

/-- Framing-layer decode failures named by the design document. -/
inductive FramingError where
  | checksumMismatch : FramingError
  | truncated : FramingError
deriving DecidableEq

/-- Modelled from the spec: §4.2 `encode` of the missing framing
module.  Appends the trailing integrity checksum, printable-encodes the
result, and splits it into lines of at most `linelength` characters:
the first line carries the start marker and the total encoded length,
every further line the continuation marker. -/
def frameEncode (linelength : Nat) (payload : List Nat) : List FrameLine :=
  match chunksOfF (hexEncode (payload ++ checksumBytes payload)).length linelength
      (hexEncode (payload ++ checksumBytes payload)) with
  | [] => [FrameLine.start (hexEncode (payload ++ checksumBytes payload)).length []]
  | c :: cs =>
      FrameLine.start (hexEncode (payload ++ checksumBytes payload)).length c ::
        cs.map FrameLine.cont

/-- Characters carried by the continuation lines following a start
line: accumulates `cont` bodies, skips interleaved `noise`, and stops
at the next `start`. -/
def contBodies : List FrameLine → List Nat
  | [] => []
  | FrameLine.cont b :: rest => b ++ contBodies rest
  | FrameLine.noise _ :: rest => contBodies rest
  | FrameLine.start _ _ :: _ => []

/-- Locates the first start line, skipping non-framed noise (and any
stray continuation line before a start), and returns the declared
encoded length together with all encoded characters gathered from the
start line and its continuation lines. -/
def findStart : List FrameLine → Option (Nat × List Nat)
  | [] => none
  | FrameLine.start n b :: rest => some (n, b ++ contBodies rest)
  | _ :: rest => findStart rest

/-- Verification of the trailing integrity checksum: splits the decoded
bytes into payload and trailing checksum and compares. -/
def verifyChecksum (full : List Nat) : Except FramingError (List Nat) :=
  if full.length < 2 then Except.error FramingError.truncated
  else
    if full.drop (full.length - 2) = checksumBytes (full.take (full.length - 2)) then
      Except.ok (full.take (full.length - 2))
    else Except.error FramingError.checksumMismatch

/-- Decoding of the accumulated encoded characters once a start line
was found: checks the declared length is satisfied, printable-decodes
exactly the declared prefix, then verifies the checksum. -/
def decodeBody (n : Nat) (body : List Nat) : Except FramingError (List Nat) :=
  if body.length < n then Except.error FramingError.truncated
  else
    match hexDecode (body.take n) with
    | none => Except.error FramingError.checksumMismatch
    | some full => verifyChecksum full

/-- Modelled from the spec: §4.2 `decode` of the missing framing
module.  Accumulates lines until the declared length is satisfied
(failing with `Truncated` otherwise), printable-decodes, splits off the
trailing checksum and verifies it (failing with `ChecksumMismatch` on
any integrity failure). -/
def frameDecode (lines : List FrameLine) : Except FramingError (List Nat) :=
  match findStart lines with
  | none => Except.error FramingError.truncated
  | some (n, body) => decodeBody n body

/-- Whether a C string argument is non-null and holds valid UTF-8 text
(the condition under which `CStr::to_str` is reached and succeeds). -/
def argTextOk : CArg → Bool
  | CArg.null => false
  | CArg.bytes bs => utf8ValidB bs

/-! ## Theorems -/

/-- Claim C9: the `From<&Cli>` conversion preserves every field
unchanged, and `SerialSpecs::default()` equals the conversion of a `Cli`
carrying the declared command-line defaults. -/
theorem serialSpecs_from_cli_preserves (cli : Cli) :
    (serialSpecsFromCli cli).device = cli.device ∧
    (serialSpecsFromCli cli).initial_timeout_s = cli.initial_timeout_s ∧
    (serialSpecsFromCli cli).subsequent_timeout_ms = cli.subsequent_timeout_ms ∧
    (serialSpecsFromCli cli).nb_retry = cli.nb_retry ∧
    (serialSpecsFromCli cli).linelength = cli.linelength ∧
    (serialSpecsFromCli cli).mtu = cli.mtu ∧
    (serialSpecsFromCli cli).baudrate = cli.baudrate ∧
    serialSpecsDefault = serialSpecsFromCli cliDefaults :=
  ⟨rfl, rfl, rfl, rfl, rfl, rfl, rfl, rfl⟩

/-- Claim C8: `rust_free_string` is a no-op on the null pointer and
deallocates exactly when the pointer is non-null. -/
theorem rust_free_string_null_noop :
    rust_free_string none = FreeAction.noop ∧
    (∀ s : List Nat, rust_free_string (some s) = FreeAction.dealloc) ∧
    (∀ p : Option (List Nat),
      rust_free_string p = FreeAction.dealloc ↔ p ≠ none) := by
  refine ⟨rfl, fun _ => rfl, fun p => ?_⟩
  cases p <;> simp [rust_free_string]


/-- Helper: complete characterization of the `rust_upload` status code. -/
theorem rust_upload_cases (device filename : CArg) (slot : Nat)
    (cb : Option (Nat → Nat → Unit))
    (uploadFn : SerialSpecs → List Nat → Nat → Option (Nat → Nat → Unit) → Except Unit Unit) :
    (rust_upload device filename slot cb uploadFn = -1 ↔
      device = CArg.null ∨ filename = CArg.null) ∧
    (rust_upload device filename slot cb uploadFn = -2 ↔
      device ≠ CArg.null ∧ filename ≠ CArg.null ∧ argTextOk device = false) ∧
    (rust_upload device filename slot cb uploadFn = -3 ↔
      filename ≠ CArg.null ∧ argTextOk device = true ∧ argTextOk filename = false) ∧
    (rust_upload device filename slot cb uploadFn = -4 ↔
      argTextOk device = true ∧ argTextOk filename = true ∧ 256 ≤ slot) ∧
    (rust_upload device filename slot cb uploadFn = -5 ↔
      argTextOk device = true ∧ argTextOk filename = true ∧ slot < 256 ∧
      ∃ db fb, device = CArg.bytes db ∧ filename = CArg.bytes fb ∧
        uploadFn { serialSpecsDefault with device := db } fb slot (wrapCallback cb) =
          Except.error ()) ∧
    (rust_upload device filename slot cb uploadFn = 0 ↔
      argTextOk device = true ∧ argTextOk filename = true ∧ slot < 256 ∧
      ∃ db fb, device = CArg.bytes db ∧ filename = CArg.bytes fb ∧
        uploadFn { serialSpecsDefault with device := db } fb slot (wrapCallback cb) =
          Except.ok ()) := by
  cases device with
  | null => simp [rust_upload, argTextOk]
  | bytes db =>
    cases filename with
    | null => simp [rust_upload, argTextOk]
    | bytes fb =>
      by_cases hd : utf8ValidB db
      · by_cases hf : utf8ValidB fb
        · by_cases hs : slot < 256
          · rcases hu : uploadFn { serialSpecsDefault with device := db } fb slot
                (wrapCallback cb) with e | v
            · cases e
              simp [rust_upload, argTextOk, hd, hf, hs, hu]
            · cases v
              simp [rust_upload, argTextOk, hd, hf, hs, hu]
          · simp [rust_upload, argTextOk, hd, hf, hs]
            omega
        · simp [rust_upload, argTextOk, hd, hf]
      · simp [rust_upload, argTextOk, hd]

/-- Helper: complete characterization of the `rust_reset` status code. -/
theorem rust_reset_cases (device : CArg) (resetFn : SerialSpecs → Except Unit Unit) :
    (rust_reset device resetFn = -1 ↔ device = CArg.null) ∧
    (rust_reset device resetFn = -2 ↔
      device ≠ CArg.null ∧ argTextOk device = false) ∧
    (rust_reset device resetFn = -3 ↔
      argTextOk device = true ∧ ∃ db, device = CArg.bytes db ∧
        resetFn { serialSpecsDefault with device := db } = Except.error ()) ∧
    (rust_reset device resetFn = 0 ↔
      argTextOk device = true ∧ ∃ db, device = CArg.bytes db ∧
        resetFn { serialSpecsDefault with device := db } = Except.ok ()) := by
  cases device with
  | null => simp [rust_reset, argTextOk]
  | bytes db =>
    by_cases hd : utf8ValidB db
    · rcases hr : resetFn { serialSpecsDefault with device := db } with e | v
      · cases e
        simp [rust_reset, argTextOk, hd, hr]
      · cases v
        simp [rust_reset, argTextOk, hd, hr]
    · simp [rust_reset, argTextOk, hd]

/-- Helper: complete characterization of the `rust_list` return value. -/
theorem rust_list_cases {α : Type} (device : CArg)
    (listFn : SerialSpecs → Except Unit α) (ser : α → Option (List Nat)) :
    (device = CArg.null → rust_list device listFn ser = none) ∧
    (argTextOk device = false → rust_list device listFn ser = none) ∧
    (∀ db, device = CArg.bytes db → utf8ValidB db = true →
      (listFn { serialSpecsDefault with device := db } = Except.error () →
        rust_list device listFn ser = none) ∧
      (∀ v, listFn { serialSpecsDefault with device := db } = Except.ok v →
        rust_list device listFn ser = some ((ser v).getD emptyJsonObject))) := by
  cases device with
  | null => simp [rust_list, argTextOk]
  | bytes db =>
    by_cases hd : utf8ValidB db
    · refine ⟨by simp, by simp [argTextOk, hd], fun db2 hdb2 _ => ?_⟩
      cases hdb2
      constructor
      · intro he
        simp [rust_list, hd, he]
      · intro v hv
        simp [rust_list, hd, hv]
    · refine ⟨by simp, fun _ => by simp [rust_list, hd], fun db2 hdb2 hv => ?_⟩
      cases hdb2
      exact absurd hv (by simp [hd])

/-- Helper: `rust_list` returns the null pointer exactly on a null
device pointer, invalid device text, or a failing list operation. -/
theorem rust_list_none_iff {α : Type} (device : CArg)
    (listFn : SerialSpecs → Except Unit α) (ser : α → Option (List Nat)) :
    rust_list device listFn ser = none ↔
      device = CArg.null ∨ argTextOk device = false ∨
      ∃ db, device = CArg.bytes db ∧
        listFn { serialSpecsDefault with device := db } = Except.error () := by
  cases device with
  | null => simp [rust_list]
  | bytes db =>
    by_cases hd : utf8ValidB db
    · rcases hl : listFn { serialSpecsDefault with device := db } with e | v
      · cases e
        simp [rust_list, argTextOk, hd, hl]
      · simp [rust_list, argTextOk, hd, hl]
    · simp [rust_list, argTextOk, hd]

/-- Claim C1: the status code returned by `rust_upload` identifies the
failure class distinctly: -1 for a null device or filename pointer, -2
for device text that is not valid UTF-8, -3 for filename text that is
not valid UTF-8, -4 when the slot does not fit in 8 bits, -5 when the
underlying upload operation returns an error, and 0 on success; the
characterizations are mutually exclusive, so no two failure classes
share a code. -/
theorem rust_upload_status_codes (device filename : CArg) (slot : Nat)
    (cb : Option (Nat → Nat → Unit))
    (uploadFn : SerialSpecs → List Nat → Nat → Option (Nat → Nat → Unit) → Except Unit Unit) :
    (rust_upload device filename slot cb uploadFn = -1 ↔
      device = CArg.null ∨ filename = CArg.null) ∧
    (rust_upload device filename slot cb uploadFn = -2 ↔
      device ≠ CArg.null ∧ filename ≠ CArg.null ∧ argTextOk device = false) ∧
    (rust_upload device filename slot cb uploadFn = -3 ↔
      filename ≠ CArg.null ∧ argTextOk device = true ∧ argTextOk filename = false) ∧
    (rust_upload device filename slot cb uploadFn = -4 ↔
      argTextOk device = true ∧ argTextOk filename = true ∧ 256 ≤ slot) ∧
    (rust_upload device filename slot cb uploadFn = -5 ↔
      argTextOk device = true ∧ argTextOk filename = true ∧ slot < 256 ∧
      ∃ db fb, device = CArg.bytes db ∧ filename = CArg.bytes fb ∧
        uploadFn { serialSpecsDefault with device := db } fb slot (wrapCallback cb) =
          Except.error ()) ∧
    (rust_upload device filename slot cb uploadFn = 0 ↔
      argTextOk device = true ∧ argTextOk filename = true ∧ slot < 256 ∧
      ∃ db fb, device = CArg.bytes db ∧ filename = CArg.bytes fb ∧
        uploadFn { serialSpecsDefault with device := db } fb slot (wrapCallback cb) =
          Except.ok ()) :=
  rust_upload_cases device filename slot cb uploadFn

/-- Claim C2, counterexample: `rust_list` does not return a small
negative integer status code on a bad string parameter — it returns a
C string pointer, and both failure classes (null pointer, and invalid
UTF-8 text such as the lone byte 0xFF) yield the very same null-pointer
return value, so the failure classes are not distinguished. -/
theorem rust_list_failures_not_distinct :
    rust_list CArg.null (fun _ => (Except.error () : Except Unit Unit)) (fun _ => none) =
      none ∧
    rust_list (CArg.bytes [255]) (fun _ => (Except.error () : Except Unit Unit))
      (fun _ => none) = none := by
  constructor
  · rfl
  · decide

/-- Claim C2, amended: `rust_upload` and `rust_reset` return small
negative integer status codes distinct per failure class for a missing
pointer or invalid text; `rust_list` instead signals every failure —
null pointer, invalid text, or a failing list operation alike — by
returning the null pointer. -/
theorem boundary_string_failure_codes (device filename : CArg) (slot : Nat)
    (cb : Option (Nat → Nat → Unit))
    (uploadFn : SerialSpecs → List Nat → Nat → Option (Nat → Nat → Unit) → Except Unit Unit)
    (resetFn : SerialSpecs → Except Unit Unit)
    {α : Type} (listFn : SerialSpecs → Except Unit α) (ser : α → Option (List Nat)) :
    (rust_upload device filename slot cb uploadFn = -1 ↔
      device = CArg.null ∨ filename = CArg.null) ∧
    (rust_upload device filename slot cb uploadFn = -2 ↔
      device ≠ CArg.null ∧ filename ≠ CArg.null ∧ argTextOk device = false) ∧
    (rust_upload device filename slot cb uploadFn = -3 ↔
      filename ≠ CArg.null ∧ argTextOk device = true ∧ argTextOk filename = false) ∧
    (rust_reset device resetFn = -1 ↔ device = CArg.null) ∧
    (rust_reset device resetFn = -2 ↔
      device ≠ CArg.null ∧ argTextOk device = false) ∧
    (rust_list device listFn ser = none ↔
      device = CArg.null ∨ argTextOk device = false ∨
      ∃ db, device = CArg.bytes db ∧
        listFn { serialSpecsDefault with device := db } = Except.error ()) := by
  obtain ⟨u1, u2, u3, -, -, -⟩ := rust_upload_cases device filename slot cb uploadFn
  obtain ⟨r1, r2, -, -⟩ := rust_reset_cases device resetFn
  exact ⟨u1, u2, u3, r1, r2, rust_list_none_iff device listFn ser⟩

/-- Claim C3: on success `rust_list` returns a non-null C string holding
the slot list serialized as JSON text, released later through
`rust_free_string`; on every failure (null pointer, invalid text, or a
failing list operation) it returns the null pointer and allocates
nothing that the caller must free. -/
theorem rust_list_result {α : Type} (device : CArg)
    (listFn : SerialSpecs → Except Unit α) (ser : α → Option (List Nat)) :
    (device = CArg.null → rust_list device listFn ser = none) ∧
    (argTextOk device = false → rust_list device listFn ser = none) ∧
    (∀ db, device = CArg.bytes db → utf8ValidB db = true →
      listFn { serialSpecsDefault with device := db } = Except.error () →
      rust_list device listFn ser = none) ∧
    (∀ db v js, device = CArg.bytes db → utf8ValidB db = true →
      listFn { serialSpecsDefault with device := db } = Except.ok v →
      ser v = some js →
      rust_list device listFn ser = some js ∧
      rust_list device listFn ser ≠ none ∧
      rust_free_string (rust_list device listFn ser) = FreeAction.dealloc) := by
  obtain ⟨h1, h2, h3⟩ := rust_list_cases device listFn ser
  refine ⟨h1, h2, fun db hdb hval => (h3 db hdb hval).1,
    fun db v js hdb hval hok hser => ?_⟩
  have hsome := (h3 db hdb hval).2 v hok
  rw [hser] at hsome
  exact ⟨hsome, by simp [hsome], by simp [hsome, rust_free_string]⟩

/-- Claim C3, witness: a concrete successful and a concrete failing
call of `rust_list`. -/
theorem rust_list_result_witness :
    rust_list (CArg.bytes [97]) (fun _ => (Except.ok 5 : Except Unit Nat))
      (fun _ => some [110, 117]) = some [110, 117] ∧
    rust_list (CArg.bytes [97]) (fun _ => (Except.error () : Except Unit Nat))
      (fun _ => some [110, 117]) = none := by
  constructor
  · exact ((rust_list_result (CArg.bytes [97]) (fun _ => (Except.ok 5 : Except Unit Nat))
      (fun _ => some [110, 117])).2.2.2 [97] 5 [110, 117] rfl (by decide) rfl rfl).1
  · exact (rust_list_result (CArg.bytes [97]) (fun _ => (Except.error () : Except Unit Nat))
      (fun _ => some [110, 117])).2.2.1 [97] rfl (by decide) rfl

/-- Claim C10: each boundary function hands its operation a
`SerialSpecs` that is `SerialSpecs::default()` with only the `device`
field replaced by the caller-supplied string — every other
configuration field is pinned to the default (60, 200, 4, 128, 512,
115200) and cannot be influenced through this interface. -/
theorem boundary_specs_only_device {α : Type} (db fnb : List Nat)
    (hd : utf8ValidB db = true) (hf : utf8ValidB fnb = true)
    (slot : Nat) (hs : slot < 256)
    (listFn : SerialSpecs → Except Unit α) (ser : α → Option (List Nat))
    (cb : Option (Nat → Nat → Unit))
    (uploadFn : SerialSpecs → List Nat → Nat → Option (Nat → Nat → Unit) → Except Unit Unit)
    (resetFn : SerialSpecs → Except Unit Unit) :
    rust_list (CArg.bytes db) listFn ser =
      (match listFn (SerialSpecs.mk db 60 200 4 128 512 115200) with
        | Except.ok v => some ((ser v).getD emptyJsonObject)
        | Except.error _ => none) ∧
    rust_upload (CArg.bytes db) (CArg.bytes fnb) slot cb uploadFn =
      (match uploadFn (SerialSpecs.mk db 60 200 4 128 512 115200) fnb slot (wrapCallback cb) with
        | Except.ok _ => 0
        | Except.error _ => -5) ∧
    rust_reset (CArg.bytes db) resetFn =
      (match resetFn (SerialSpecs.mk db 60 200 4 128 512 115200) with
        | Except.ok _ => 0
        | Except.error _ => -3) := by
  refine ⟨?_, ?_, ?_⟩
  · simp [rust_list, hd, serialSpecsDefault]
  · simp [rust_upload, hd, hf, hs, serialSpecsDefault]
  · simp [rust_reset, hd, serialSpecsDefault]

/-- Claim C10, witness: concrete calls of the three boundary functions
at an empty device name, checking them against the operations applied
at the default specs with only the device field supplied. -/
theorem boundary_specs_only_device_witness :
    rust_list (CArg.bytes []) (fun s => (Except.ok s.mtu : Except Unit Nat))
      (fun n => some [n]) = some [512] ∧
    rust_upload (CArg.bytes []) (CArg.bytes []) 0 none
      (fun _ _ _ _ => Except.ok ()) = 0 ∧
    rust_reset (CArg.bytes []) (fun _ => Except.error ()) = -3 := by
  have h := boundary_specs_only_device ([]) ([]) rfl rfl 0 (by decide)
    (fun s => (Except.ok s.mtu : Except Unit Nat)) (fun n => some [n]) none
    (fun _ _ _ _ => Except.ok ()) (fun _ => Except.error ())
  exact ⟨h.1, h.2.1, h.2.2⟩

/-- Helper: `getLast?` skips the head of a list with a nonempty tail. -/
theorem getLast_cons_of_ne_nil {α : Type} (a : α) (l : List α) (h : l ≠ []) :
    (a :: l).getLast? = l.getLast? := by
  cases l with
  | nil => exact absurd rfl h
  | cons b t => rfl

/-- Helper: the chunk length is positive while bytes remain. -/
theorem chunkLen_pos (fb lb L offset : Nat) (hfb : 0 < fb) (hlb : 0 < lb)
    (h : offset < L) : 0 < chunkLen fb lb L offset := by
  unfold chunkLen
  refine lt_min ?_ (by omega)
  split <;> assumption

/-- Helper: a chunk never reaches past the end of the image. -/
theorem chunkLen_le (fb lb L offset : Nat) : chunkLen fb lb L offset ≤ L - offset := by
  unfold chunkLen
  exact min_le_right _ _

/-- Helper: no chunks are generated at or past the end of the image. -/
theorem uploadChunksF_stop (fb lb L fuel offset : Nat) (h : L ≤ offset) :
    uploadChunksF fb lb L fuel offset = [] := by
  cases fuel <;> simp [uploadChunksF, Nat.not_lt.2 h]

/-- Helper: one unfolding of the chunk generator while bytes remain. -/
theorem uploadChunksF_step (fb lb L fuel offset : Nat) (h : offset < L) :
    uploadChunksF fb lb L (fuel + 1) offset =
      (offset, chunkLen fb lb L offset) ::
        uploadChunksF fb lb L fuel (offset + chunkLen fb lb L offset) := by
  simp [uploadChunksF, h]

/-- Helper: the chunk intervals concatenate to exactly the byte range
still to transfer. -/
theorem uploadChunksF_flatMap (fb lb L : Nat) (hfb : 0 < fb) (hlb : 0 < lb) :
    ∀ fuel offset, L - offset ≤ fuel →
      (uploadChunksF fb lb L fuel offset).flatMap (fun p => List.range' p.1 p.2) =
        List.range' offset (L - offset) := by
  intro fuel
  induction fuel with
  | zero =>
    intro offset h
    have h0 : L - offset = 0 := by omega
    simp [uploadChunksF, h0]
  | succ n ih =>
    intro offset h
    by_cases hoL : offset < L
    · have hpos := chunkLen_pos fb lb L offset hfb hlb hoL
      have hle := chunkLen_le fb lb L offset
      rw [uploadChunksF_step fb lb L n offset hoL, List.flatMap_cons,
        ih (offset + chunkLen fb lb L offset) (by omega)]
      have happ := List.range'_append offset (chunkLen fb lb L offset)
        (L - (offset + chunkLen fb lb L offset)) 1
      simp only [one_mul] at happ
      rw [happ]
      congr 1
      omega
    · have h0 : L - offset = 0 := by omega
      simp [uploadChunksF, hoL, h0]

/-- Helper: every generated chunk is nonempty. -/
theorem uploadChunksF_chunk_pos (fb lb L : Nat) (hfb : 0 < fb) (hlb : 0 < lb) :
    ∀ fuel offset p, p ∈ uploadChunksF fb lb L fuel offset → 0 < p.2 := by
  intro fuel
  induction fuel with
  | zero => intro offset p hp; simp [uploadChunksF] at hp
  | succ n ih =>
    intro offset p hp
    by_cases hoL : offset < L
    · rw [uploadChunksF_step fb lb L n offset hoL] at hp
      rcases List.mem_cons.mp hp with h1 | h2
      · rw [h1]
        exact chunkLen_pos fb lb L offset hfb hlb hoL
      · exact ih _ p h2
    · rw [uploadChunksF_stop fb lb L _ offset (by omega)] at hp
      simp at hp

/-- Helper: the next expected offset reported with the last chunk is
exactly the total image length. -/
theorem uploadChunksF_last (fb lb L : Nat) (hfb : 0 < fb) (hlb : 0 < lb) :
    ∀ fuel offset, L - offset ≤ fuel → offset < L →
      ((uploadChunksF fb lb L fuel offset).map (fun p => p.1 + p.2)).getLast? =
        some L := by
  intro fuel
  induction fuel with
  | zero => intro offset h hoL; omega
  | succ n ih =>
    intro offset h hoL
    have hpos := chunkLen_pos fb lb L offset hfb hlb hoL
    have hle := chunkLen_le fb lb L offset
    rw [uploadChunksF_step fb lb L n offset hoL, List.map_cons]
    by_cases hend : offset + chunkLen fb lb L offset < L
    · have htail := ih (offset + chunkLen fb lb L offset) (by omega) hend
      rw [getLast_cons_of_ne_nil _ _ (by intro he; rw [he] at htail; simp at htail)]
      exact htail
    · have hLe : L ≤ offset + chunkLen fb lb L offset := by omega
      have hEq : offset + chunkLen fb lb L offset = L := by omega
      rw [uploadChunksF_stop fb lb L n _ hLe]
      simp [hEq]

/-- Helper: the upload loop terminates `Done` immediately once the
offset has reached the total length. -/
theorem runUpload_base (fb lb nbRetry L offset fails : Nat) (resps : List Resp)
    (h : L ≤ offset) :
    runUpload fb lb nbRetry L offset fails resps = ⟨[], [], UpResult.done⟩ := by
  rw [runUpload.eq_def]
  simp [h]

/-- Helper: one matching acknowledgement advances the offset, resets
the failure counter and emits one progress event. -/
theorem runUpload_ack (fb lb nbRetry L offset fails : Nat) (rest : List Resp)
    (h : offset < L) :
    runUpload fb lb nbRetry L offset fails
        (Resp.ack (offset + chunkLen fb lb L offset) :: rest) =
      ⟨(offset, chunkLen fb lb L offset) ::
          (runUpload fb lb nbRetry L (offset + chunkLen fb lb L offset) 0 rest).sends,
        (offset + chunkLen fb lb L offset, L) ::
          (runUpload fb lb nbRetry L (offset + chunkLen fb lb L offset) 0 rest).events,
        (runUpload fb lb nbRetry L (offset + chunkLen fb lb L offset) 0 rest).result⟩ := by
  rw [runUpload.eq_def]
  simp [Nat.not_le.2 h]

/-- Helper: a timeout within the retry budget resends the identical
chunk without emitting a progress event. -/
theorem runUpload_timeout_retry (fb lb nbRetry L offset fails : Nat) (rest : List Resp)
    (h : offset < L) (hf : fails + 1 ≤ nbRetry) :
    runUpload fb lb nbRetry L offset fails (Resp.timeout :: rest) =
      ⟨(offset, chunkLen fb lb L offset) ::
          (runUpload fb lb nbRetry L offset (fails + 1) rest).sends,
        (runUpload fb lb nbRetry L offset (fails + 1) rest).events,
        (runUpload fb lb nbRetry L offset (fails + 1) rest).result⟩ := by
  rw [runUpload.eq_def]
  simp [Nat.not_le.2 h, Nat.not_lt.2 hf]

/-- Helper: a timeout beyond the retry budget aborts with `Timeout`
and sends nothing further. -/
theorem runUpload_timeout_abort (fb lb nbRetry L offset fails : Nat) (rest : List Resp)
    (h : offset < L) (hf : nbRetry < fails + 1) :
    runUpload fb lb nbRetry L offset fails (Resp.timeout :: rest) =
      ⟨[(offset, chunkLen fb lb L offset)], [], UpResult.timedOut⟩ := by
  rw [runUpload.eq_def]
  simp [Nat.not_le.2 h, hf]

/-- Helper: under a fault-free acknowledgement script the upload loop
sends exactly the generated chunks, emits one progress event per chunk
carrying the total length, and terminates `Done`. -/
theorem runUpload_ackScript (fb lb nbRetry L : Nat) (hfb : 0 < fb) (hlb : 0 < lb) :
    ∀ fuel offset fails, L - offset ≤ fuel →
      runUpload fb lb nbRetry L offset fails (ackScript fb lb L fuel offset) =
        ⟨uploadChunksF fb lb L fuel offset,
          (uploadChunksF fb lb L fuel offset).map (fun p => (p.1 + p.2, L)),
          UpResult.done⟩ := by
  intro fuel
  induction fuel with
  | zero =>
    intro offset fails h
    have hLe : L ≤ offset := by omega
    rw [uploadChunksF_stop fb lb L 0 offset hLe]
    simp [ackScript, uploadChunksF_stop fb lb L 0 offset hLe,
      runUpload_base fb lb nbRetry L offset fails [] hLe]
  | succ n ih =>
    intro offset fails h
    by_cases hoL : offset < L
    · have hpos := chunkLen_pos fb lb L offset hfb hlb hoL
      have hle := chunkLen_le fb lb L offset
      rw [uploadChunksF_step fb lb L n offset hoL]
      have hscript : ackScript fb lb L (n + 1) offset =
          Resp.ack (offset + chunkLen fb lb L offset) ::
            ackScript fb lb L n (offset + chunkLen fb lb L offset) := by
        simp [ackScript, uploadChunksF_step fb lb L n offset hoL]
      rw [hscript, runUpload_ack fb lb nbRetry L offset fails _ hoL,
        ih (offset + chunkLen fb lb L offset) 0 (by omega)]
      simp
    · have hLe : L ≤ offset := by omega
      rw [uploadChunksF_stop fb lb L _ offset hLe]
      simp [ackScript, uploadChunksF_stop fb lb L _ offset hLe,
        runUpload_base fb lb nbRetry L offset fails [] hLe]

/-- Helper: a run of timeouts within the retry budget resends the
identical chunk once per timeout, emits no progress event, and then
continues with the failure counter advanced. -/
theorem runUpload_timeouts (fb lb nbRetry L offset : Nat) (hoL : offset < L) :
    ∀ k fails (rest : List Resp), fails + k ≤ nbRetry →
      runUpload fb lb nbRetry L offset fails (List.replicate k Resp.timeout ++ rest) =
        ⟨List.replicate k (offset, chunkLen fb lb L offset) ++
            (runUpload fb lb nbRetry L offset (fails + k) rest).sends,
          (runUpload fb lb nbRetry L offset (fails + k) rest).events,
          (runUpload fb lb nbRetry L offset (fails + k) rest).result⟩ := by
  intro k
  induction k with
  | zero => intro fails rest h; simp
  | succ n ih =>
    intro fails rest h
    rw [List.replicate_succ, List.cons_append,
      runUpload_timeout_retry fb lb nbRetry L offset fails _ hoL (by omega),
      ih (fails + 1) rest (by omega)]
    simp only [List.replicate_succ, List.cons_append]
    have : fails + 1 + n = fails + (n + 1) := by omega
    rw [this]

/-- Helper: a NAK within the retry budget resends the identical chunk
without emitting a progress event. -/
theorem runUpload_nak_retry (fb lb nbRetry L offset fails : Nat) (rest : List Resp)
    (h : offset < L) (hf : fails + 1 ≤ nbRetry) :
    runUpload fb lb nbRetry L offset fails (Resp.nak :: rest) =
      ⟨(offset, chunkLen fb lb L offset) ::
          (runUpload fb lb nbRetry L offset (fails + 1) rest).sends,
        (runUpload fb lb nbRetry L offset (fails + 1) rest).events,
        (runUpload fb lb nbRetry L offset (fails + 1) rest).result⟩ := by
  rw [runUpload.eq_def]
  simp [Nat.not_le.2 h, Nat.not_lt.2 hf]

/-- Helper: a NAK beyond the retry budget aborts with a protocol
error. -/
theorem runUpload_nak_abort (fb lb nbRetry L offset fails : Nat) (rest : List Resp)
    (h : offset < L) (hf : nbRetry < fails + 1) :
    runUpload fb lb nbRetry L offset fails (Resp.nak :: rest) =
      ⟨[(offset, chunkLen fb lb L offset)], [], UpResult.protoErr⟩ := by
  rw [runUpload.eq_def]
  simp [Nat.not_le.2 h, hf]

/-- Helper: whenever a run terminates `Done` from a not-yet-complete
offset, its very last progress event reports `(L, L)` — success is
only ever signalled once every byte has been acknowledged. -/
theorem runUpload_done_last (fb lb nbRetry L : Nat) :
    ∀ (resps : List Resp) (offset fails : Nat),
      (runUpload fb lb nbRetry L offset fails resps).result = UpResult.done →
      L ≤ offset ∨
        (runUpload fb lb nbRetry L offset fails resps).events.getLast? = some (L, L) := by
  intro resps
  induction resps with
  | nil =>
    intro offset fails h
    by_cases hoL : L ≤ offset
    · exact Or.inl hoL
    · rw [runUpload.eq_def] at h
      simp [hoL] at h
  | cons r rest ih =>
    intro offset fails h
    by_cases hoL : L ≤ offset
    · exact Or.inl hoL
    · have hlt : offset < L := by omega
      right
      cases r with
      | ack o2 =>
        by_cases ho2 : o2 = offset + chunkLen fb lb L offset
        · subst ho2
          rw [runUpload_ack fb lb nbRetry L offset fails rest hlt] at h ⊢
          simp only at h ⊢
          by_cases hend : L ≤ offset + chunkLen fb lb L offset
          · have hEq : offset + chunkLen fb lb L offset = L := by
              have := chunkLen_le fb lb L offset
              omega
            rw [runUpload_base fb lb nbRetry L _ 0 rest hend]
            simp [hEq]
          · rcases ih (offset + chunkLen fb lb L offset) 0 h with h1 | h2
            · omega
            · rw [getLast_cons_of_ne_nil _ _ (by intro he; rw [he] at h2; simp at h2)]
              exact h2
        · rw [runUpload.eq_def] at h
          simp [hoL, ho2] at h
      | timeout =>
        by_cases hf : fails + 1 ≤ nbRetry
        · rw [runUpload_timeout_retry fb lb nbRetry L offset fails rest hlt hf] at h ⊢
          simp only at h ⊢
          rcases ih offset (fails + 1) h with h1 | h2
          · omega
          · exact h2
        · rw [runUpload_timeout_abort fb lb nbRetry L offset fails rest hlt (by omega)] at h
          simp at h
      | nak =>
        by_cases hf : fails + 1 ≤ nbRetry
        · rw [runUpload_nak_retry fb lb nbRetry L offset fails rest hlt hf] at h ⊢
          simp only at h ⊢
          rcases ih offset (fails + 1) h with h1 | h2
          · omega
          · exact h2
        · rw [runUpload_nak_abort fb lb nbRetry L offset fails rest hlt (by omega)] at h
          simp at h

/-- Claim C5: for every image length `L` and positive transfer budgets,
the chunk offsets generated by the upload state machine partition
`[0, L)` with no gaps and no overlaps (their intervals concatenate, in
order, to exactly `0, 1, …, L-1`), every chunk is nonempty, the final
reported offset equals `L`, and a run only reports success once every
byte has been acknowledged (its last progress event is `(L, L)`). -/
theorem upload_chunks_partition (fb lb L fuel : Nat)
    (hfb : 0 < fb) (hlb : 0 < lb) (hfuel : L ≤ fuel) :
    ((uploadChunksF fb lb L fuel 0).flatMap (fun p => List.range' p.1 p.2) =
      List.range L) ∧
    (∀ p ∈ uploadChunksF fb lb L fuel 0, 0 < p.2) ∧
    (0 < L →
      ((uploadChunksF fb lb L fuel 0).map (fun p => p.1 + p.2)).getLast? = some L) ∧
    (∀ nbRetry fails resps,
      (runUpload fb lb nbRetry L 0 fails resps).result = UpResult.done → 0 < L →
      (runUpload fb lb nbRetry L 0 fails resps).events.getLast? = some (L, L)) := by
  refine ⟨?_, ?_, ?_, ?_⟩
  · have h := uploadChunksF_flatMap fb lb L hfb hlb fuel 0 (by omega)
    rw [h, Nat.sub_zero, List.range_eq_range']
  · exact fun p hp => uploadChunksF_chunk_pos fb lb L hfb hlb fuel 0 p hp
  · exact fun hL => uploadChunksF_last fb lb L hfb hlb fuel 0 (by omega) hL
  · intro nbRetry fails resps hdone hL
    rcases runUpload_done_last fb lb nbRetry L resps 0 fails hdone with h1 | h2
    · omega
    · exact h2

/-- Claim C5, witness: a 20-byte image with first budget 4 and later
budget 6 partitions into chunks (0,4), (4,6), (10,6), (16,4), and a
fault-free run reports `(20, 20)` last. -/
theorem upload_chunks_partition_witness :
    ((uploadChunksF 4 6 20 20 0).flatMap (fun p => List.range' p.1 p.2) =
      List.range 20) ∧
    ((uploadChunksF 4 6 20 20 0).map (fun p => p.1 + p.2)).getLast? = some 20 ∧
    (runUpload 4 6 2 20 0 0 (ackScript 4 6 20 20 0)).events.getLast? =
      some (20, 20) := by
  have h := upload_chunks_partition 4 6 20 20 (by decide) (by decide) (by decide)
  exact ⟨h.1, h.2.2.1 (by decide),
    h.2.2.2 2 0 (ackScript 4 6 20 20 0) (by decide) (by decide)⟩

/-- Claim C4: the `rust_upload` wrapper forwards the progress sink's
`(offset, total)` arguments unchanged, and the upload loop invokes the
progress sink exactly once per successfully acknowledged chunk — one
event per generated chunk, unchanged by `k ≤ nb_retry` timeout attempts
— with the second argument always the final total length `L`. -/
theorem progress_events_per_chunk (fb lb nbRetry L offset fuel k : Nat)
    (hfb : 0 < fb) (hlb : 0 < lb) (hoL : offset < L)
    (hfuel : L - offset ≤ fuel) (hk : k ≤ nbRetry) :
    (∀ cb : Option (Nat → Nat → Unit), wrapCallback cb = cb) ∧
    (runUpload fb lb nbRetry L offset 0
        (List.replicate k Resp.timeout ++ ackScript fb lb L fuel offset)).events =
      (uploadChunksF fb lb L fuel offset).map (fun p => (p.1 + p.2, L)) ∧
    (∀ e ∈ (runUpload fb lb nbRetry L offset 0
        (List.replicate k Resp.timeout ++ ackScript fb lb L fuel offset)).events,
      e.2 = L) := by
  have hev : (runUpload fb lb nbRetry L offset 0
      (List.replicate k Resp.timeout ++ ackScript fb lb L fuel offset)).events =
      (uploadChunksF fb lb L fuel offset).map (fun p => (p.1 + p.2, L)) := by
    rw [runUpload_timeouts fb lb nbRetry L offset hoL k 0 _ (by omega),
      runUpload_ackScript fb lb nbRetry L hfb hlb fuel offset (0 + k) hfuel]
  refine ⟨?_, hev, ?_⟩
  · intro cb
    cases cb <;> rfl
  · intro e he
    rw [hev] at he
    rcases List.mem_map.mp he with ⟨p, -, hpe⟩
    rw [← hpe]

/-- Claim C4, witness: a concrete run with one timeout retry still
emits exactly one progress event per chunk, each carrying total 20. -/
theorem progress_events_per_chunk_witness :
    wrapCallback none = none ∧
    (runUpload 4 6 2 20 0 0
        (List.replicate 1 Resp.timeout ++ ackScript 4 6 20 20 0)).events =
      (uploadChunksF 4 6 20 20 0).map (fun p => (p.1 + p.2, 20)) := by
  have h := progress_events_per_chunk 4 6 2 20 0 20 1 (by decide) (by decide)
    (by decide) (by decide) (by decide)
  exact ⟨h.1 none, h.2.1⟩

/-- Claim C7: from any offset still short of the total, if the
transport times out exactly `nbRetry` times on that chunk and then
acknowledges everything, the upload completes `Done` with the identical
chunk resent on every retry; with `nbRetry + 1` timeouts on that chunk
the upload aborts with `Timeout` after exactly those `nbRetry + 1`
sends of the identical chunk — no further sends and no progress events
occur, whatever responses would have followed. -/
theorem retry_budget (fb lb nbRetry L offset fuel : Nat)
    (hfb : 0 < fb) (hlb : 0 < lb) (hoL : offset < L) (hfuel : L - offset ≤ fuel) :
    (runUpload fb lb nbRetry L offset 0
        (List.replicate nbRetry Resp.timeout ++ ackScript fb lb L fuel offset) =
      ⟨List.replicate nbRetry (offset, chunkLen fb lb L offset) ++
          uploadChunksF fb lb L fuel offset,
        (uploadChunksF fb lb L fuel offset).map (fun p => (p.1 + p.2, L)),
        UpResult.done⟩) ∧
    (∀ rest : List Resp, runUpload fb lb nbRetry L offset 0
        (List.replicate (nbRetry + 1) Resp.timeout ++ rest) =
      ⟨List.replicate (nbRetry + 1) (offset, chunkLen fb lb L offset), [],
        UpResult.timedOut⟩) := by
  constructor
  · rw [runUpload_timeouts fb lb nbRetry L offset hoL nbRetry 0 _ (by omega),
      runUpload_ackScript fb lb nbRetry L hfb hlb fuel offset (0 + nbRetry) hfuel]
  · intro rest
    rw [List.replicate_succ', List.append_assoc,
      runUpload_timeouts fb lb nbRetry L offset hoL nbRetry 0 _ (by omega),
      List.singleton_append,
      runUpload_timeout_abort fb lb nbRetry L offset (0 + nbRetry) rest hoL (by omega)]
    simp [List.replicate_succ']

/-- Claim C7, witness: with retry budget 2, two timeouts before the
acknowledgements still complete a 10-byte upload with the first chunk
sent three times; three timeouts abort with `Timeout` after exactly
three identical sends, ignoring any further scripted responses. -/
theorem retry_budget_witness :
    (runUpload 4 6 2 10 0 0
        (List.replicate 2 Resp.timeout ++ ackScript 4 6 10 10 0) =
      ⟨List.replicate 2 (0, chunkLen 4 6 10 0) ++ uploadChunksF 4 6 10 10 0,
        (uploadChunksF 4 6 10 10 0).map (fun p => (p.1 + p.2, 10)),
        UpResult.done⟩) ∧
    (runUpload 4 6 2 10 0 0
        (List.replicate 3 Resp.timeout ++ [Resp.ack 4]) =
      ⟨List.replicate 3 (0, chunkLen 4 6 10 0), [], UpResult.timedOut⟩) := by
  have h := retry_budget 4 6 2 10 0 10 (by decide) (by decide) (by decide) (by decide)
  exact ⟨h.1, h.2 [Resp.ack 4]⟩

/-- Helper: a hexadecimal digit character decodes back to its value. -/
theorem hexVal_hexDigit (n : Nat) (h : n < 16) : hexVal (hexDigit n) = some n := by
  unfold hexVal hexDigit
  by_cases h10 : n < 10
  · rw [if_pos h10, if_pos (by omega : 48 ≤ 48 + n ∧ 48 + n ≤ 57)]
    congr 1
    omega
  · rw [if_neg h10, if_neg (by omega : ¬(48 ≤ 55 + n ∧ 55 + n ≤ 57)),
      if_pos (by omega : 65 ≤ 55 + n ∧ 55 + n ≤ 70)]
    congr 1
    omega

/-- Helper: the printable encoding emits two characters per byte. -/
theorem hexEncode_length (bs : List Nat) : (hexEncode bs).length = 2 * bs.length := by
  induction bs with
  | nil => rfl
  | cons b t ih =>
    simp only [hexEncode, List.flatMap_cons, List.length_append, List.length_cons,
      List.length_nil] at ih ⊢
    omega

/-- Helper: printable decoding inverts printable encoding on byte
sequences. -/
theorem hexDecode_hexEncode : ∀ bs : List Nat, (∀ b ∈ bs, b < 256) →
    hexDecode (hexEncode bs) = some bs := by
  intro bs
  induction bs with
  | nil => intro _; rfl
  | cons b t ih =>
    intro h
    have hb : b < 256 := h b (List.mem_cons_self b t)
    have hcons : hexEncode (b :: t) =
        hexDigit (b / 16) :: hexDigit (b % 16) :: hexEncode t := by
      simp [hexEncode]
    rw [hcons, hexDecode, hexVal_hexDigit _ (by omega), hexVal_hexDigit _ (by omega),
      ih (fun x hx => h x (List.mem_cons_of_mem b hx))]
    simp [Nat.div_add_mod]

/-- Helper: splitting into bounded runs loses nothing — the runs
concatenate back to the original list. -/
theorem chunksOfF_flatten {α : Type} : ∀ (fuel n : Nat) (xs : List α), 1 ≤ n →
    xs.length ≤ fuel → (chunksOfF fuel n xs).flatten = xs := by
  intro fuel
  induction fuel with
  | zero =>
    intro n xs hn h
    have hx : xs = [] := List.length_eq_zero.mp (by omega)
    subst hx
    rfl
  | succ m ih =>
    intro n xs hn h
    cases xs with
    | nil => rfl
    | cons x t =>
      rw [chunksOfF, List.flatten_cons,
        ih n _ hn (by rw [List.length_drop]; simp at h ⊢; omega)]
      exact List.take_append_drop n (x :: t)

/-- Helper: accumulating the bodies of pure continuation lines yields
their concatenation. -/
theorem contBodies_map_cont : ∀ cs : List (List Nat),
    contBodies (cs.map FrameLine.cont) = cs.flatten := by
  intro cs
  induction cs with
  | nil => rfl
  | cons c t ih => simp [contBodies, ih]

/-- Helper: both checksum bytes are bytes. -/
theorem checksumBytes_lt (payload : List Nat) :
    ∀ b ∈ checksumBytes payload, b < 256 := by
  intro b hb
  have hcs : checksum16 payload < 65536 := Nat.mod_lt _ (by decide)
  simp [checksumBytes] at hb
  rcases hb with h1 | h2 <;> omega

/-- Helper: checksum verification accepts a payload carrying its own
trailing checksum and strips it. -/
theorem verifyChecksum_append (payload : List Nat) :
    verifyChecksum (payload ++ checksumBytes payload) = Except.ok payload := by
  have hlen2 : (payload ++ checksumBytes payload).length = payload.length + 2 := by
    simp [checksumBytes]
  have htake : (payload ++ checksumBytes payload).take
      ((payload ++ checksumBytes payload).length - 2) = payload := by
    rw [hlen2, Nat.add_sub_cancel]
    exact List.take_left payload (checksumBytes payload)
  have hdrop : (payload ++ checksumBytes payload).drop
      ((payload ++ checksumBytes payload).length - 2) = checksumBytes payload := by
    rw [hlen2, Nat.add_sub_cancel]
    exact List.drop_left payload (checksumBytes payload)
  unfold verifyChecksum
  rw [if_neg (by omega), htake, hdrop, if_pos rfl]

/-- Claim C6: for every byte payload and positive line length, decoding
the Line Framer's encoding of the payload returns the original payload
exactly — including payloads whose printable encoding spans several
lines bounded by the configured line length. -/
theorem frame_roundtrip (linelength : Nat) (payload : List Nat)
    (hl : 0 < linelength) (hb : ∀ b ∈ payload, b < 256) :
    frameDecode (frameEncode linelength payload) = Except.ok payload := by
  have hfull : ∀ b ∈ payload ++ checksumBytes payload, b < 256 := by
    intro b hbm
    rcases List.mem_append.mp hbm with h1 | h2
    · exact hb b h1
    · exact checksumBytes_lt payload b h2
  have hdec : decodeBody (hexEncode (payload ++ checksumBytes payload)).length
      (hexEncode (payload ++ checksumBytes payload)) = Except.ok payload := by
    unfold decodeBody
    rw [if_neg (lt_irrefl _), List.take_length, hexDecode_hexEncode _ hfull]
    exact verifyChecksum_append payload
  have hlen2 : (payload ++ checksumBytes payload).length = payload.length + 2 := by
    simp [checksumBytes]
  have hflat := chunksOfF_flatten (hexEncode (payload ++ checksumBytes payload)).length
    linelength (hexEncode (payload ++ checksumBytes payload)) hl (le_refl _)
  rcases hch : chunksOfF (hexEncode (payload ++ checksumBytes payload)).length linelength
      (hexEncode (payload ++ checksumBytes payload)) with _ | ⟨c, cs⟩
  · exfalso
    rw [hch] at hflat
    simp only [List.flatten_nil] at hflat
    have h0 : (hexEncode (payload ++ checksumBytes payload)).length = 0 := by
      rw [← hflat]
      rfl
    rw [hexEncode_length, hlen2] at h0
    omega
  · have henc : frameEncode linelength payload =
        FrameLine.start (hexEncode (payload ++ checksumBytes payload)).length c ::
          cs.map FrameLine.cont := by
      unfold frameEncode
      rw [hch]
    rw [henc]
    show decodeBody (hexEncode (payload ++ checksumBytes payload)).length
      (c ++ contBodies (cs.map FrameLine.cont)) = Except.ok payload
    rw [contBodies_map_cont]
    rw [hch] at hflat
    rw [List.flatten_cons] at hflat
    rw [hflat]
    exact hdec

/-- Claim C6, witness: a three-byte payload with line length 4, whose
ten-character printable encoding spans three lines, decodes back
exactly. -/
theorem frame_roundtrip_witness :
    (0 : Nat) < 4 ∧ (frameEncode 4 [1, 2, 3]).length = 3 ∧
    frameDecode (frameEncode 4 [1, 2, 3]) = Except.ok [1, 2, 3] :=
  ⟨by decide, by decide, frame_roundtrip 4 [1, 2, 3] (by decide) (by decide)⟩
